import Mathlib

/-!
Verification development for a small recursive ray tracer (`src/main.rs`).

The embedding idealises `f32` arithmetic as real arithmetic (`ℝ`): all
quantities computed by the tracer are modelled exactly, `f32::MAX` becomes the
corresponding real constant, and `sqrt` becomes `Real.sqrt`.  The unbounded
recursion of the shader is modelled with an explicit fuel parameter (`none`
means the recursion did not finish within the given fuel), and the global
random generator is modelled as an explicit stream `u : ℕ → ℝ` threaded by
index.  The byte-serialisation path (`V::c`), whose behaviour on NaN and
infinities is of interest, is modelled separately with an `F32` type that has
the special values.
-/

/-- Three-component vector, doubling as an RGB color (struct `V` in the source). -/
@[ext] structure V where
  x : ℝ
  y : ℝ
  z : ℝ

/-- Vector addition (`impl ops::Add<V> for V`). -/
instance : Add V := ⟨fun a b => ⟨a.x + b.x, a.y + b.y, a.z + b.z⟩⟩

/-- Scalar multiplication (`impl ops::Mul<f32> for V`). -/
instance : HMul V ℝ V := ⟨fun v r => ⟨v.x * r, v.y * r, v.z * r⟩⟩

/-- Dot product (`impl ops::Rem<V> for V`). -/
def V.dot (a b : V) : ℝ := a.x * b.x + a.y * b.y + a.z * b.z

/-- Normalization (`impl ops::Not for V`): `self * (1.0 / (self % self).sqrt())`. -/
noncomputable def V.nrm (a : V) : V := a * (1 / Real.sqrt (V.dot a a))

/-- Result of the intersection test `trace`: classification `m`
(0 = sky / upward miss, 1 = ground plane, 2 = sphere), distance `t`,
surface normal `n`. -/
structure Hit where
  m : ℕ
  t : ℝ
  n : V

/-- The scene grid (`let g = [...]` in `trace`): one bitmask per row,
bit `k` of row `j` marks an occupied sphere cell. -/
def g : List ℕ := [202766, 202779, 6150, 6152, 7579, 5902]

/-- Iteration order of the sphere loop: `iproduct!(0..19, 0..g.len())`,
first component outermost. -/
def cells : List (ℕ × ℕ) :=
  (List.range 19).flatMap fun k => (List.range 6).map fun j => (k, j)

/-- The occupancy test `g[j] & 1<<k > 0` for cell `(k, j)`. -/
def occ (k j : ℕ) : Prop := 0 < g.getD j 0 &&& (1 <<< k)

instance (k j : ℕ) : Decidable (occ k j) := by unfold occ; infer_instance

/-- Sphere-relative ray origin `p = *o + V{x: -k, y: 0, z: -j - 4}`. -/
def sphP (o : V) (k j : ℕ) : V := o + V.mk (-(k : ℝ)) 0 (-(j : ℝ) - 4)

/-- The quadratic coefficient `b = p % *d`. -/
def sphB (o d : V) (k j : ℕ) : ℝ := V.dot (sphP o k j) d

/-- The quadratic coefficient `c = p % p - 1.0`. -/
def sphC (o : V) (k j : ℕ) : ℝ := V.dot (sphP o k j) (sphP o k j) - 1

/-- The discriminant `q = b * b - c`. -/
def sphQ (o d : V) (k j : ℕ) : ℝ := sphB o d k j * sphB o d k j - sphC o k j

/-- The nearest quadratic root `s = -b - q.sqrt()`. -/
noncomputable def sphS (o d : V) (k j : ℕ) : ℝ :=
  -(sphB o d k j) - Real.sqrt (sphQ o d k j)

/-- One iteration of the sphere loop body for an occupied cell `(k, j)`:
if `q > 0` and the root `s` beats the current best distance and exceeds the
epsilon `0.01`, record a sphere hit at distance `s` with normal
`!(p + *d * t)`. -/
noncomputable def sphereStep (o d : V) (st : Hit) (k j : ℕ) : Hit :=
  if sphQ o d k j > 0 then
    if sphS o d k j < st.t ∧ sphS o d k j > 0.01 then
      ⟨2, sphS o d k j, V.nrm (sphP o k j + d * sphS o d k j)⟩
    else st
  else st

/-- The full loop body: the sphere test runs only when the cell is occupied. -/
noncomputable def loopBody (o d : V) (st : Hit) (c : ℕ × ℕ) : Hit :=
  if occ c.1 c.2 then sphereStep o d st c.1 c.2 else st

/-- `f32::MAX`, the initial best distance. -/
def fMAX : ℝ := 340282346638528859811704183484516925440

/-- State after the ground-plane test: `p = -o.z/d.z`; if `p > 0.01` the
provisional hit is the ground plane (`m = 1`, distance `p`), otherwise the
initial upward-miss state (`m = 0`, `t = f32::MAX`, `n = (0,0,1)`). -/
noncomputable def groundState (o d : V) : Hit :=
  if -o.z / d.z > 0.01 then ⟨1, -o.z / d.z, ⟨0, 0, 1⟩⟩ else ⟨0, fMAX, ⟨0, 0, 1⟩⟩

/-- The intersection test `trace(o, d)`: ground-plane test, then the
brute-force scan over all grid cells. -/
noncomputable def trace (o d : V) : Hit :=
  List.foldl (loopBody o d) (groundState o d) cells

/-- Light direction `l = !(V{9+r(), 9+r(), 16} + h * -1)`: direction toward the
jittered point light.  The two random draws are `u i` and `u (i+1)`. -/
noncomputable def lightDir (u : ℕ → ℝ) (i : ℕ) (h : V) : V :=
  V.nrm (V.mk (9 + u i) (9 + u (i + 1)) 16 + h * (-1 : ℝ))

/-- Reflection direction `rv = *d + n * (n % *d * -2.0)`. -/
noncomputable def reflDir (d n : V) : V := d + n * (V.dot n d * (-2))

/-- The Lambertian term after the shadow test: `b = l % n`, then
`if b < 0.0 || trace(&h, &l).0 > 0 { b = 0.0 }`. -/
noncomputable def shadowB (l n h : V) : ℝ :=
  if V.dot l n < 0 ∨ 0 < (trace h l).m then 0 else V.dot l n

/-- Checkerboard color of the ground branch: after `h = h * 0.2`, the color is
`(3,1,1)` when `(h.x.ceil() + h.y.ceil()) as i32 & 1 == 1` (the sum of
ceilings is odd) and `(3,3,3)` otherwise. -/
noncomputable def groundCheck (h : V) : V :=
  if (⌈(h * (0.2 : ℝ)).x⌉ + ⌈(h * (0.2 : ℝ)).y⌉) % 2 = 1 then ⟨3, 1, 1⟩ else ⟨3, 3, 3⟩

/-- The recursive shader `sample(o, d)`, with explicit recursion fuel (the Rust
code has no depth cap; `none` means the recursion did not finish within the
given fuel) and an explicit random stream `u` consumed from index `i`
(each invocation draws `u i` and `u (i+1)` for the light jitter and passes
index `i+2` to the reflection bounce). -/
noncomputable def sample : ℕ → (ℕ → ℝ) → ℕ → V → V → Option V
  | 0, _, _, _, _ => none
  | fuel + 1, u, i, o, d =>
    let h := trace o d
    if h.m = 0 then
      some (V.mk 0.7 0.6 1 * (1 - d.z) ^ 4)
    else
      let hp := o + d * h.t
      let l := lightDir u i hp
      let rv := reflDir d h.n
      let b := shadowB l h.n hp
      if h.m = 1 then
        some (groundCheck hp * (b * 0.2 + 0.1))
      else
        let p := (V.dot l rv * (if b > 0 then 1 else 0)) ^ 99
        (sample fuel u (i + 2) hp rv).map fun c => V.mk p p p + c * (0.5 : ℝ)

/-- `sample` terminates on `(o, d)` iff some finite fuel suffices for every
random stream. -/
def Terminates (o d : V) : Prop :=
  ∃ fuel, ∀ (u : ℕ → ℝ) (i : ℕ), sample fuel u i o d ≠ none

/-- The fixed eye point `V{16, 16, 8}` of `trace_pixel`. -/
def eye : V := ⟨16, 16, 8⟩

/-- The per-sample lens jitter `t = av*(r()-0.5)*99.0 + bv*(r()-0.5)*99.0`. -/
def lensJitter (av bv : V) (r1 r2 : ℝ) : V :=
  av * (r1 - 0.5) * (99 : ℝ) + bv * (r2 - 0.5) * (99 : ℝ)

/-- The jittered ray origin of one sample: `V{16,16,8} + t`. -/
def pixelRayO (av bv : V) (r1 r2 : ℝ) : V := eye + lensJitter av bv r1 r2

/-- The jittered ray direction of one sample:
`!(t * -1.0 + (av*(r() + x) + bv*(y + r()) + cv) * 16.0)`, with `r1, r2` the
same two draws that formed `t` and `r3, r4` the two fresh sub-pixel draws. -/
noncomputable def pixelRayD (av bv cv : V) (x y : ℤ) (r1 r2 r3 r4 : ℝ) : V :=
  V.nrm (lensJitter av bv r1 r2 * (-1 : ℝ) +
    (av * (r3 + (x : ℝ)) + bv * ((y : ℝ) + r4) + cv) * (16 : ℝ))

/-- `SAMPLES` (256) and the brightness gain `GAIN = 224.0 / SAMPLES`. -/
noncomputable def GAIN : ℝ := 224 / 256

/-- One pixel job `trace_pixel(x, y, av, bv, cv, i)`: accumulate `SAMPLES`
jittered shading samples (scaled by `GAIN`) onto the base color `(13,13,13)`
and return the result tagged with the job's sequence index.  Iteration `s`
uses the random substream `us s`: draws 0–3 are the lens and sub-pixel
jitters, and the shader consumes the substream from index 4. -/
noncomputable def tracePixel (fuel : ℕ) (us : ℕ → ℕ → ℝ) (x y : ℤ)
    (av bv cv : V) (idx : ℕ) : Option (ℕ × V) :=
  ((List.range 256).foldl
    (fun acc s => acc.bind fun pAcc =>
      (sample fuel (us s) 4 (pixelRayO av bv (us s 0) (us s 1))
          (pixelRayD av bv cv x y (us s 0) (us s 1) (us s 2) (us s 3))).map
        fun c => c * GAIN + pAcc)
    (some ⟨13, 13, 13⟩)).map fun p => (idx, p)

/-- The tagged result sequence in completion-independent raster form: task `i`
carries color `f i`, in sequence-index order (`main` enumerates the pixel
tasks with `enumerate`, and each worker sends back `(i, color)`). -/
def results (f : ℕ → V) (N : ℕ) : List (ℕ × V) :=
  (List.range N).map fun i => (i, f i)

/-- The reassembly step of `main`: `colors.sort_by(|a, b| a.0.cmp(&b.0))`,
sorting the received `(index, color)` pairs by sequence index (modelled with
insertion sort; with distinct indices any comparison sort yields the same
sorted list). -/
def sortByIdx (l : List (ℕ × V)) : List (ℕ × V) :=
  List.insertionSort (fun a b => a.1 ≤ b.1) l

/-- Floating-point component values relevant to the serialisation path:
NaN, the two infinities, and finite values (rationals suffice for every
finite `f32`). -/
inductive F32 where
  | nan : F32
  | inf : F32
  | ninf : F32
  | fin : ℚ → F32
deriving DecidableEq

/-- Rust `f32` strict comparison: NaN compares false with everything. -/
def F32.lt : F32 → F32 → Bool
  | .nan, _ => false
  | _, .nan => false
  | .ninf, .ninf => false
  | .ninf, _ => true
  | _, .ninf => false
  | .inf, _ => false
  | .fin _, .inf => true
  | .fin a, .fin b => decide (a < b)

/-- Rust `f32::clamp(self, min, max)`: `min` if `self < min`, `max` if
`self > max`, otherwise `self` (NaN propagates). -/
def F32.clamp (x lo hi : F32) : F32 :=
  if F32.lt x lo then lo else if F32.lt hi x then hi else x

/-- Rust `as u8` saturating cast from `f32`: NaN becomes 0, the value is
truncated toward zero and saturated to `[0, 255]`. -/
def F32.toU8 : F32 → ℕ
  | .nan => 0
  | .ninf => 0
  | .inf => 255
  | .fin a => if a < 0 then 0 else min 255 (⌊a⌋).toNat

/-- One channel of `V::c`: `self.x.clamp(0.0, 255.0) as u8`. -/
def byteOf (x : F32) : ℕ := F32.toU8 (F32.clamp x (F32.fin 0) (F32.fin 255))

/-- A color with `f32` special values, for the serialisation path. -/
structure VF where
  x : F32
  y : F32
  z : F32

/-- The byte conversion `V::c` of a color vector. -/
def VF.c (v : VF) : ℕ × ℕ × ℕ := (byteOf v.x, byteOf v.y, byteOf v.z)

/-- Modelled from the spec: `p = origin - C` for a sphere center `C`. -/
def pAt (C o : V) : V := o + C * (-1 : ℝ)

/-- Modelled from the spec: `b = dot(p, direction)`. -/
def bAt (C o d : V) : ℝ := V.dot (pAt C o) d

/-- Modelled from the spec: `c = dot(p, p) - 1`. -/
def cAt (C o : V) : ℝ := V.dot (pAt C o) (pAt C o) - 1

/-- Modelled from the spec: the discriminant `q = b*b - c`. -/
def qAt (C o d : V) : ℝ := bAt C o d * bAt C o d - cAt C o

/-- Modelled from the spec: the nearest root `s = -b - sqrt(q)`. -/
noncomputable def sAt (C o d : V) : ℝ := -(bAt C o d) - Real.sqrt (qAt C o d)

/-- Modelled from the spec: the per-cell sphere test of §4.1 written for an
arbitrary sphere center `C` (`p = origin - C`, `b = dot(p, direction)`,
`c = dot(p,p) - 1`, `q = b*b - c`, nearest root `s = -b - sqrt(q)`, accepted
when `q > 0` and `s` beats the current best and exceeds `0.01`).  Used to
compare the source's cell scan against the centers the spec names. -/
noncomputable def sphereStepAt (C o d : V) (st : Hit) : Hit :=
  if qAt C o d > 0 then
    if sAt C o d < st.t ∧ sAt C o d > 0.01 then
      ⟨2, sAt C o d, V.nrm (pAt C o + d * sAt C o d)⟩
    else st
  else st

/-- The cells of the grid that are actually occupied, in loop order. -/
def occupiedCells : List (ℕ × ℕ) := cells.filter fun c => decide (occ c.1 c.2)

/-- Modelled from the spec: an intersector that scans exactly the occupied
cells, testing at each one a unit sphere centered at `C k j`. -/
noncomputable def traceWithCenters (C : ℕ → ℕ → V) (o d : V) : Hit :=
  List.foldl (fun st c => sphereStepAt (C c.1 c.2) o d st)
    (groundState o d) occupiedCells

/-- Modelled from the spec: the center `(x = k, y = 0, z = -j - 4)` that the
spec (and claim C5) assigns to cell `(k, j)`. -/
def centerSpec (k j : ℕ) : V := ⟨(k : ℝ), 0, -(j : ℝ) - 4⟩

/-- The center `(x = k, y = 0, z = j + 4)` that the code actually tests
(`p = o - (k, 0, j + 4)`). -/
def centerAmended (k j : ℕ) : V := ⟨(k : ℝ), 0, (j : ℝ) + 4⟩

/-- Modelled from the spec: the intersector as claim C5 describes it, spheres
centered at `(k, 0, -j-4)`. -/
noncomputable def traceSpecC5 : V → V → Hit := traceWithCenters centerSpec

/-- The intersector with the corrected centers `(k, 0, j+4)`. -/
noncomputable def traceAmendedC5 : V → V → Hit := traceWithCenters centerAmended

/-- A fixed all-zero random stream, used to instantiate witnesses. -/
def u0 : ℕ → ℝ := fun _ => 0

/-- The specular term of the sphere branch:
`p = ((l % rv) * (if b > 0.0 { 1.0 } else { 0.0 })).powi(99)`, with `l`, `rv`
and `b` as `sample` computes them for the ray `(o, d)`. -/
noncomputable def specTerm (u : ℕ → ℝ) (i : ℕ) (o d : V) : ℝ :=
  (V.dot (lightDir u i (o + d * (trace o d).t)) (reflDir d (trace o d).n) *
    (if shadowB (lightDir u i (o + d * (trace o d).t)) (trace o d).n
        (o + d * (trace o d).t) > 0 then 1 else 0)) ^ 99

/-- A concrete indexed family of colors, used to instantiate the scheduler
reassembly property. -/
def f0 : ℕ → V := fun i => ⟨(i : ℝ), 0, 0⟩

@[simp] theorem V.add_x (a b : V) : (a + b).x = a.x + b.x := rfl
@[simp] theorem V.add_y (a b : V) : (a + b).y = a.y + b.y := rfl
@[simp] theorem V.add_z (a b : V) : (a + b).z = a.z + b.z := rfl
@[simp] theorem V.mul_x (a : V) (r : ℝ) : (a * r).x = a.x * r := rfl
@[simp] theorem V.mul_y (a : V) (r : ℝ) : (a * r).y = a.y * r := rfl
@[simp] theorem V.mul_z (a : V) (r : ℝ) : (a * r).z = a.z * r := rfl
@[simp] theorem V.mk_x (a b c : ℝ) : (V.mk a b c).x = a := rfl
@[simp] theorem V.mk_y (a b c : ℝ) : (V.mk a b c).y = b := rfl
@[simp] theorem V.mk_z (a b c : ℝ) : (V.mk a b c).z = c := rfl

/-- Folding a function that fixes the state over any list leaves the state
unchanged. -/
theorem foldlFixed {α β : Type _} (f : α → β → α) (s : α) :
    ∀ l : List β, (∀ c ∈ l, f s c = s) → List.foldl f s l = s
  | [], _ => rfl
  | c :: l, h => by
    rw [List.foldl_cons, h c (List.mem_cons_self c l)]
    exact foldlFixed f s l fun b hb => h b (List.mem_cons_of_mem c hb)

/-- A guarded fold over a list is the plain fold over the filtered list. -/
theorem foldlGuard {α β : Type _} (p : β → Prop) [DecidablePred p]
    (f : α → β → α) :
    ∀ (l : List β) (s : α),
      List.foldl (fun st c => if p c then f st c else st) s l =
        List.foldl f s (l.filter fun c => decide (p c))
  | [], _ => rfl
  | c :: l, s => by
    by_cases hp : p c
    · simp [List.filter_cons, hp, foldlGuard p f l (f s c)]
    · simp [List.filter_cons, hp, foldlGuard p f l s]

/-- `trace` is the fold of the sphere test over exactly the occupied cells. -/
theorem trace_eq_occ (o d : V) :
    trace o d =
      List.foldl (fun st c => sphereStep o d st c.1 c.2)
        (groundState o d) occupiedCells := by
  unfold trace occupiedCells loopBody
  exact foldlGuard (fun c => occ c.1 c.2) _ cells (groundState o d)

/-- The sphere test leaves the state unchanged when the discriminant is not
positive, or the root does not clear the epsilon, or it does not beat the
current best distance. -/
theorem sphereStep_reject (o d : V) (st : Hit) (k j : ℕ)
    (h : sphQ o d k j ≤ 0 ∨ sphS o d k j ≤ 0.01 ∨ st.t ≤ sphS o d k j) :
    sphereStep o d st k j = st := by
  unfold sphereStep
  rcases h with h | h | h
  · rw [if_neg (not_lt.mpr h)]
  · by_cases hq : sphQ o d k j > 0
    · rw [if_pos hq, if_neg fun hc => absurd hc.2 (not_lt.mpr h)]
    · rw [if_neg hq]
  · by_cases hq : sphQ o d k j > 0
    · rw [if_pos hq, if_neg fun hc => absurd hc.1 (not_lt.mpr h)]
    · rw [if_neg hq]

/-- The sphere test records a hit when the discriminant is positive and the
root beats the current best distance and clears the epsilon. -/
theorem sphereStep_accept (o d : V) (st : Hit) (k j : ℕ)
    (hq : sphQ o d k j > 0) (h1 : sphS o d k j < st.t)
    (h2 : sphS o d k j > 0.01) :
    sphereStep o d st k j =
      ⟨2, sphS o d k j, V.nrm (sphP o k j + d * sphS o d k j)⟩ := by
  unfold sphereStep
  rw [if_pos hq, if_pos ⟨h1, h2⟩]

/-- Normalizing the unit vector `(0,0,1)` returns it unchanged. -/
theorem nrm_unitZ : V.nrm ⟨0, 0, 1⟩ = ⟨0, 0, 1⟩ := by
  unfold V.nrm V.dot
  ext <;> simp

/-- Normalizing the unit vector `(1,0,0)` returns it unchanged. -/
theorem nrm_unitX : V.nrm ⟨1, 0, 0⟩ = ⟨1, 0, 0⟩ := by
  unfold V.nrm V.dot
  ext <;> simp

/-- Normalizing the unit vector `(-1,0,0)` returns it unchanged. -/
theorem nrm_unitXneg : V.nrm ⟨-1, 0, 0⟩ = ⟨-1, 0, 0⟩ := by
  unfold V.nrm V.dot
  ext <;> simp

/-- Discriminant along the vertical ray from `(9,0,12)`: it depends only on
the lateral distance to the sphere column. -/
theorem sphQ_down9 (k j : ℕ) :
    sphQ ⟨9, 0, 12⟩ ⟨0, 0, -1⟩ k j = 1 - ((9 : ℝ) - k) ^ 2 := by
  simp [sphQ, sphB, sphC, sphP, V.dot]
  ring

/-- Every cell off column 9 rejects the vertical ray from `(9,0,12)`. -/
theorem step_down9_id (k j : ℕ) (st : Hit) (hk : k ≠ 9) :
    sphereStep ⟨9, 0, 12⟩ ⟨0, 0, -1⟩ st k j = st := by
  apply sphereStep_reject
  left
  rw [sphQ_down9]
  have h1 : (1 : ℝ) ≤ ((9 : ℝ) - k) ^ 2 := by
    rcases lt_or_gt_of_ne hk with h | h
    · have hk8 : (k : ℝ) ≤ 8 := by exact_mod_cast Nat.le_of_lt_succ h
      nlinarith
    · have hk10 : (10 : ℝ) ≤ (k : ℝ) := by exact_mod_cast h
      nlinarith
  linarith

/-- The root at cell `(9,5)` for the vertical ray from `(9,0,12)`. -/
theorem sphS_down9 : sphS ⟨9, 0, 12⟩ ⟨0, 0, -1⟩ 9 5 = 2 := by
  have hq : sphQ ⟨9, 0, 12⟩ ⟨0, 0, -1⟩ 9 5 = 1 := by rw [sphQ_down9]; norm_num
  unfold sphS
  rw [hq, Real.sqrt_one]
  simp [sphB, sphP, V.dot]
  norm_num

/-- The ground state for the vertical ray from `(9,0,12)`. -/
theorem ground_down9 : groundState ⟨9, 0, 12⟩ ⟨0, 0, -1⟩ = ⟨1, 12, ⟨0, 0, 1⟩⟩ := by
  unfold groundState
  rw [if_pos (by simp; norm_num)]
  simp [Hit.mk.injEq]

/-- The vertical ray from `(9,0,12)` hits the sphere of cell `(9,5)` at
distance 2, overriding the provisional ground hit at distance 12. -/
theorem trace_down9 : trace ⟨9, 0, 12⟩ ⟨0, 0, -1⟩ = ⟨2, 2, ⟨0, 0, 1⟩⟩ := by
  rw [trace_eq_occ, ground_down9]
  have hsplit : occupiedCells =
      [(0,1),(0,4),(1,0),(1,1),(1,2),(1,4),(1,5),(2,0),(2,2),(2,5),(3,0),(3,1),
       (3,3),(3,4),(3,5),(4,1),(4,4),(7,4),(8,4),(8,5)] ++ (9,5) ::
      [(10,4),(10,5),(11,0),(11,1),(11,2),(11,3),(11,4),(12,0),(12,1),(12,2),
       (12,3),(12,4),(12,5),(16,0),(16,1),(17,0),(17,1)] := by decide
  rw [hsplit, List.foldl_append, List.foldl_cons]
  have hpre : List.foldl
      (fun st (c : ℕ × ℕ) => sphereStep ⟨9, 0, 12⟩ ⟨0, 0, -1⟩ st c.1 c.2)
      (⟨1, 12, ⟨0, 0, 1⟩⟩ : Hit)
      [(0,1),(0,4),(1,0),(1,1),(1,2),(1,4),(1,5),(2,0),(2,2),(2,5),(3,0),(3,1),
       (3,3),(3,4),(3,5),(4,1),(4,4),(7,4),(8,4),(8,5)] = ⟨1, 12, ⟨0, 0, 1⟩⟩ :=
    foldlFixed _ _ _ fun c hc =>
      step_down9_id c.1 c.2 _ (by fin_cases hc <;> decide)
  rw [hpre]
  have hstep : sphereStep ⟨9, 0, 12⟩ ⟨0, 0, -1⟩ ⟨1, 12, ⟨0, 0, 1⟩⟩ 9 5 =
      ⟨2, 2, ⟨0, 0, 1⟩⟩ := by
    rw [sphereStep_accept _ _ _ _ _ (by rw [sphQ_down9]; norm_num)
      (by rw [sphS_down9]; norm_num) (by rw [sphS_down9]; norm_num)]
    rw [sphS_down9]
    have hv : sphP ⟨9, 0, 12⟩ 9 5 + (V.mk 0 0 (-1)) * (2 : ℝ) = ⟨0, 0, 1⟩ := by
      ext <;> simp [sphP] <;> norm_num
    rw [hv, nrm_unitZ]
  show List.foldl
      (fun st (c : ℕ × ℕ) => sphereStep ⟨9, 0, 12⟩ ⟨0, 0, -1⟩ st c.1 c.2)
      (sphereStep ⟨9, 0, 12⟩ ⟨0, 0, -1⟩ ⟨1, 12, ⟨0, 0, 1⟩⟩ 9 5)
      [(10,4),(10,5),(11,0),(11,1),(11,2),(11,3),(11,4),(12,0),(12,1),(12,2),
       (12,3),(12,4),(12,5),(16,0),(16,1),(17,0),(17,1)] = ⟨2, 2, ⟨0, 0, 1⟩⟩
  rw [hstep]
  exact foldlFixed _ _ _ fun c hc =>
    step_down9_id c.1 c.2 _ (by fin_cases hc <;> decide)

/-- Discriminant along the ray from `(4,0,9)` in direction `(1,0,0)`: it
depends only on the vertical distance to the sphere row. -/
theorem sphQ_rayA (k j : ℕ) :
    sphQ ⟨4, 0, 9⟩ ⟨1, 0, 0⟩ k j = 1 - ((5 : ℝ) - j) ^ 2 := by
  simp [sphQ, sphB, sphC, sphP, V.dot]
  ring

/-- Roots along the ray from `(4,0,9)` toward `(1,0,0)` in row 5. -/
theorem sphS_rayA (k : ℕ) : sphS ⟨4, 0, 9⟩ ⟨1, 0, 0⟩ k 5 = (k : ℝ) - 5 := by
  have hq : sphQ ⟨4, 0, 9⟩ ⟨1, 0, 0⟩ k 5 = 1 := by rw [sphQ_rayA]; norm_num
  unfold sphS
  rw [hq, Real.sqrt_one]
  simp [sphB, sphP, V.dot]
  ring

/-- Cells off row 5, and row-5 cells behind the origin, reject the ray from
`(4,0,9)` toward `(1,0,0)` whatever the current state. -/
theorem step_rayA_id (k j : ℕ) (st : Hit) (h : j ≠ 5 ∨ k ≤ 3) :
    sphereStep ⟨4, 0, 9⟩ ⟨1, 0, 0⟩ st k j = st := by
  by_cases hj : j = 5
  · subst hj
    rcases h with hj' | hk
    · exact absurd rfl hj'
    · apply sphereStep_reject
      right; left
      rw [sphS_rayA]
      have hk3 : (k : ℝ) ≤ 3 := by exact_mod_cast hk
      have h001 : (0.01 : ℝ) = 1 / 100 := by norm_num
      rw [h001]
      linarith
  · apply sphereStep_reject
    left
    rw [sphQ_rayA]
    have h1 : (1 : ℝ) ≤ ((5 : ℝ) - j) ^ 2 := by
      rcases (by omega : j ≤ 4 ∨ 6 ≤ j) with h4 | h6
      · have hj4 : (j : ℝ) ≤ 4 := by exact_mod_cast h4
        nlinarith
      · have hj6 : (6 : ℝ) ≤ (j : ℝ) := by exact_mod_cast h6
        nlinarith
    linarith

/-- The ground state for the horizontal ray from `(4,0,9)`: the ground-plane
division has a zero denominator (modelled as 0 in ℝ; `-inf` in `f32` —
rejected by the `> 0.01` test either way). -/
theorem ground_rayA : groundState ⟨4, 0, 9⟩ ⟨1, 0, 0⟩ = ⟨0, fMAX, ⟨0, 0, 1⟩⟩ := by
  unfold groundState
  rw [if_neg (by simp; norm_num)]

/-- The ray from `(4,0,9)` toward `(1,0,0)` hits the sphere of cell `(8,5)`
at distance 3, with normal `(-1,0,0)`. -/
theorem trace_rayA : trace ⟨4, 0, 9⟩ ⟨1, 0, 0⟩ = ⟨2, 3, ⟨-1, 0, 0⟩⟩ := by
  rw [trace_eq_occ, ground_rayA]
  have hsplit : occupiedCells =
      [(0,1),(0,4),(1,0),(1,1),(1,2),(1,4),(1,5),(2,0),(2,2),(2,5),(3,0),(3,1),
       (3,3),(3,4),(3,5),(4,1),(4,4),(7,4),(8,4)] ++ (8,5) ::
      [(9,5),(10,4),(10,5),(11,0),(11,1),(11,2),(11,3),(11,4),(12,0),(12,1),
       (12,2),(12,3),(12,4),(12,5),(16,0),(16,1),(17,0),(17,1)] := by decide
  rw [hsplit, List.foldl_append, List.foldl_cons]
  have hpre : List.foldl
      (fun st (c : ℕ × ℕ) => sphereStep ⟨4, 0, 9⟩ ⟨1, 0, 0⟩ st c.1 c.2)
      (⟨0, fMAX, ⟨0, 0, 1⟩⟩ : Hit)
      [(0,1),(0,4),(1,0),(1,1),(1,2),(1,4),(1,5),(2,0),(2,2),(2,5),(3,0),(3,1),
       (3,3),(3,4),(3,5),(4,1),(4,4),(7,4),(8,4)] = ⟨0, fMAX, ⟨0, 0, 1⟩⟩ :=
    foldlFixed _ _ _ fun c hc =>
      step_rayA_id c.1 c.2 _ (by fin_cases hc <;> decide)
  rw [hpre]
  have hs : sphS ⟨4, 0, 9⟩ ⟨1, 0, 0⟩ 8 5 = 3 := by rw [sphS_rayA]; norm_num
  have hstep : sphereStep ⟨4, 0, 9⟩ ⟨1, 0, 0⟩ ⟨0, fMAX, ⟨0, 0, 1⟩⟩ 8 5 =
      ⟨2, 3, ⟨-1, 0, 0⟩⟩ := by
    rw [sphereStep_accept _ _ _ _ _ (by rw [sphQ_rayA]; norm_num)
      (by rw [hs]; norm_num [fMAX]) (by rw [hs]; norm_num)]
    rw [hs]
    have hv : sphP ⟨4, 0, 9⟩ 8 5 + (V.mk 1 0 0) * (3 : ℝ) = ⟨-1, 0, 0⟩ := by
      ext <;> simp [sphP] <;> norm_num
    rw [hv, nrm_unitXneg]
  show List.foldl
      (fun st (c : ℕ × ℕ) => sphereStep ⟨4, 0, 9⟩ ⟨1, 0, 0⟩ st c.1 c.2)
      (sphereStep ⟨4, 0, 9⟩ ⟨1, 0, 0⟩ ⟨0, fMAX, ⟨0, 0, 1⟩⟩ 8 5)
      [(9,5),(10,4),(10,5),(11,0),(11,1),(11,2),(11,3),(11,4),(12,0),(12,1),
       (12,2),(12,3),(12,4),(12,5),(16,0),(16,1),(17,0),(17,1)] =
      ⟨2, 3, ⟨-1, 0, 0⟩⟩
  rw [hstep]
  exact foldlFixed _ _ _ fun c hc => by
    fin_cases hc <;>
      first
        | exact step_rayA_id _ _ _ (by decide)
        | (apply sphereStep_reject; right; right; norm_num [sphS_rayA])

/-- Discriminant along the ray from `(7,0,9)` in direction `(-1,0,0)`. -/
theorem sphQ_rayB (k j : ℕ) :
    sphQ ⟨7, 0, 9⟩ ⟨-1, 0, 0⟩ k j = 1 - ((5 : ℝ) - j) ^ 2 := by
  simp [sphQ, sphB, sphC, sphP, V.dot]
  ring

/-- Roots along the ray from `(7,0,9)` toward `(-1,0,0)` in row 5. -/
theorem sphS_rayB (k : ℕ) : sphS ⟨7, 0, 9⟩ ⟨-1, 0, 0⟩ k 5 = 6 - (k : ℝ) := by
  have hq : sphQ ⟨7, 0, 9⟩ ⟨-1, 0, 0⟩ k 5 = 1 := by rw [sphQ_rayB]; norm_num
  unfold sphS
  rw [hq, Real.sqrt_one]
  simp [sphB, sphP, V.dot]
  ring

/-- Cells off row 5, and row-5 cells behind the origin, reject the ray from
`(7,0,9)` toward `(-1,0,0)` whatever the current state. -/
theorem step_rayB_id (k j : ℕ) (st : Hit) (h : j ≠ 5 ∨ 8 ≤ k) :
    sphereStep ⟨7, 0, 9⟩ ⟨-1, 0, 0⟩ st k j = st := by
  by_cases hj : j = 5
  · subst hj
    rcases h with hj' | hk
    · exact absurd rfl hj'
    · apply sphereStep_reject
      right; left
      rw [sphS_rayB]
      have hk8 : (8 : ℝ) ≤ (k : ℝ) := by exact_mod_cast hk
      have h001 : (0.01 : ℝ) = 1 / 100 := by norm_num
      rw [h001]
      linarith
  · apply sphereStep_reject
    left
    rw [sphQ_rayB]
    have h1 : (1 : ℝ) ≤ ((5 : ℝ) - j) ^ 2 := by
      rcases (by omega : j ≤ 4 ∨ 6 ≤ j) with h4 | h6
      · have hj4 : (j : ℝ) ≤ 4 := by exact_mod_cast h4
        nlinarith
      · have hj6 : (6 : ℝ) ≤ (j : ℝ) := by exact_mod_cast h6
        nlinarith
    linarith

/-- The ground state for the horizontal ray from `(7,0,9)`. -/
theorem ground_rayB : groundState ⟨7, 0, 9⟩ ⟨-1, 0, 0⟩ = ⟨0, fMAX, ⟨0, 0, 1⟩⟩ := by
  unfold groundState
  rw [if_neg (by simp; norm_num)]

/-- The ray from `(7,0,9)` toward `(-1,0,0)` hits the spheres of row 5 at
columns 1, 2 and 3 in scan order, ending at distance 3 (sphere `(3,5)`) with
normal `(1,0,0)`. -/
theorem trace_rayB : trace ⟨7, 0, 9⟩ ⟨-1, 0, 0⟩ = ⟨2, 3, ⟨1, 0, 0⟩⟩ := by
  rw [trace_eq_occ, ground_rayB]
  have hsplit : occupiedCells =
      [(0,1),(0,4),(1,0),(1,1),(1,2),(1,4)] ++ (1,5) ::
      ([(2,0),(2,2)] ++ (2,5) ::
        ([(3,0),(3,1),(3,3),(3,4)] ++ (3,5) ::
          [(4,1),(4,4),(7,4),(8,4),(8,5),(9,5),(10,4),(10,5),(11,0),(11,1),
           (11,2),(11,3),(11,4),(12,0),(12,1),(12,2),(12,3),(12,4),(12,5),
           (16,0),(16,1),(17,0),(17,1)])) := by decide
  rw [hsplit, List.foldl_append, List.foldl_cons]
  have hpre1 : List.foldl
      (fun st (c : ℕ × ℕ) => sphereStep ⟨7, 0, 9⟩ ⟨-1, 0, 0⟩ st c.1 c.2)
      (⟨0, fMAX, ⟨0, 0, 1⟩⟩ : Hit)
      [(0,1),(0,4),(1,0),(1,1),(1,2),(1,4)] = ⟨0, fMAX, ⟨0, 0, 1⟩⟩ :=
    foldlFixed _ _ _ fun c hc =>
      step_rayB_id c.1 c.2 _ (by fin_cases hc <;> decide)
  rw [hpre1]
  have hs1 : sphS ⟨7, 0, 9⟩ ⟨-1, 0, 0⟩ 1 5 = 5 := by rw [sphS_rayB]; norm_num
  have hstep1 : sphereStep ⟨7, 0, 9⟩ ⟨-1, 0, 0⟩ ⟨0, fMAX, ⟨0, 0, 1⟩⟩ 1 5 =
      ⟨2, 5, ⟨1, 0, 0⟩⟩ := by
    rw [sphereStep_accept _ _ _ _ _ (by rw [sphQ_rayB]; norm_num)
      (by rw [hs1]; norm_num [fMAX]) (by rw [hs1]; norm_num)]
    rw [hs1]
    have hv : sphP ⟨7, 0, 9⟩ 1 5 + (V.mk (-1) 0 0) * (5 : ℝ) = ⟨1, 0, 0⟩ := by
      ext <;> simp [sphP] <;> norm_num
    rw [hv, nrm_unitX]
  show List.foldl
      (fun st (c : ℕ × ℕ) => sphereStep ⟨7, 0, 9⟩ ⟨-1, 0, 0⟩ st c.1 c.2)
      (sphereStep ⟨7, 0, 9⟩ ⟨-1, 0, 0⟩ ⟨0, fMAX, ⟨0, 0, 1⟩⟩ 1 5)
      ([(2,0),(2,2)] ++ (2,5) ::
        ([(3,0),(3,1),(3,3),(3,4)] ++ (3,5) ::
          [(4,1),(4,4),(7,4),(8,4),(8,5),(9,5),(10,4),(10,5),(11,0),(11,1),
           (11,2),(11,3),(11,4),(12,0),(12,1),(12,2),(12,3),(12,4),(12,5),
           (16,0),(16,1),(17,0),(17,1)])) = ⟨2, 3, ⟨1, 0, 0⟩⟩
  rw [hstep1, List.foldl_append, List.foldl_cons]
  have hpre2 : List.foldl
      (fun st (c : ℕ × ℕ) => sphereStep ⟨7, 0, 9⟩ ⟨-1, 0, 0⟩ st c.1 c.2)
      (⟨2, 5, ⟨1, 0, 0⟩⟩ : Hit) [(2,0),(2,2)] = ⟨2, 5, ⟨1, 0, 0⟩⟩ :=
    foldlFixed _ _ _ fun c hc =>
      step_rayB_id c.1 c.2 _ (by fin_cases hc <;> decide)
  rw [hpre2]
  have hs2 : sphS ⟨7, 0, 9⟩ ⟨-1, 0, 0⟩ 2 5 = 4 := by rw [sphS_rayB]; norm_num
  have hstep2 : sphereStep ⟨7, 0, 9⟩ ⟨-1, 0, 0⟩ ⟨2, 5, ⟨1, 0, 0⟩⟩ 2 5 =
      ⟨2, 4, ⟨1, 0, 0⟩⟩ := by
    rw [sphereStep_accept _ _ _ _ _ (by rw [sphQ_rayB]; norm_num)
      (by rw [hs2]; norm_num) (by rw [hs2]; norm_num)]
    rw [hs2]
    have hv : sphP ⟨7, 0, 9⟩ 2 5 + (V.mk (-1) 0 0) * (4 : ℝ) = ⟨1, 0, 0⟩ := by
      ext <;> simp [sphP] <;> norm_num
    rw [hv, nrm_unitX]
  show List.foldl
      (fun st (c : ℕ × ℕ) => sphereStep ⟨7, 0, 9⟩ ⟨-1, 0, 0⟩ st c.1 c.2)
      (sphereStep ⟨7, 0, 9⟩ ⟨-1, 0, 0⟩ ⟨2, 5, ⟨1, 0, 0⟩⟩ 2 5)
      ([(3,0),(3,1),(3,3),(3,4)] ++ (3,5) ::
        [(4,1),(4,4),(7,4),(8,4),(8,5),(9,5),(10,4),(10,5),(11,0),(11,1),
         (11,2),(11,3),(11,4),(12,0),(12,1),(12,2),(12,3),(12,4),(12,5),
         (16,0),(16,1),(17,0),(17,1)]) = ⟨2, 3, ⟨1, 0, 0⟩⟩
  rw [hstep2, List.foldl_append, List.foldl_cons]
  have hpre3 : List.foldl
      (fun st (c : ℕ × ℕ) => sphereStep ⟨7, 0, 9⟩ ⟨-1, 0, 0⟩ st c.1 c.2)
      (⟨2, 4, ⟨1, 0, 0⟩⟩ : Hit) [(3,0),(3,1),(3,3),(3,4)] = ⟨2, 4, ⟨1, 0, 0⟩⟩ :=
    foldlFixed _ _ _ fun c hc =>
      step_rayB_id c.1 c.2 _ (by fin_cases hc <;> decide)
  rw [hpre3]
  have hs3 : sphS ⟨7, 0, 9⟩ ⟨-1, 0, 0⟩ 3 5 = 3 := by rw [sphS_rayB]; norm_num
  have hstep3 : sphereStep ⟨7, 0, 9⟩ ⟨-1, 0, 0⟩ ⟨2, 4, ⟨1, 0, 0⟩⟩ 3 5 =
      ⟨2, 3, ⟨1, 0, 0⟩⟩ := by
    rw [sphereStep_accept _ _ _ _ _ (by rw [sphQ_rayB]; norm_num)
      (by rw [hs3]; norm_num) (by rw [hs3]; norm_num)]
    rw [hs3]
    have hv : sphP ⟨7, 0, 9⟩ 3 5 + (V.mk (-1) 0 0) * (3 : ℝ) = ⟨1, 0, 0⟩ := by
      ext <;> simp [sphP] <;> norm_num
    rw [hv, nrm_unitX]
  show List.foldl
      (fun st (c : ℕ × ℕ) => sphereStep ⟨7, 0, 9⟩ ⟨-1, 0, 0⟩ st c.1 c.2)
      (sphereStep ⟨7, 0, 9⟩ ⟨-1, 0, 0⟩ ⟨2, 4, ⟨1, 0, 0⟩⟩ 3 5)
      [(4,1),(4,4),(7,4),(8,4),(8,5),(9,5),(10,4),(10,5),(11,0),(11,1),
       (11,2),(11,3),(11,4),(12,0),(12,1),(12,2),(12,3),(12,4),(12,5),
       (16,0),(16,1),(17,0),(17,1)] = ⟨2, 3, ⟨1, 0, 0⟩⟩
  rw [hstep3]
  exact foldlFixed _ _ _ fun c hc =>
    step_rayB_id c.1 c.2 _ (by fin_cases hc <;> decide)

/-- Discriminant along the vertical ray from `(0,2,1)`: negative everywhere
(the ray passes at lateral distance 2 from every sphere row). -/
theorem sphQ_side1 (k j : ℕ) :
    sphQ ⟨0, 2, 1⟩ ⟨0, 0, -1⟩ k j = -3 - (k : ℝ) ^ 2 := by
  simp [sphQ, sphB, sphC, sphP, V.dot]
  ring

/-- Every cell rejects the vertical ray from `(0,2,1)`. -/
theorem step_side1_id (k j : ℕ) (st : Hit) :
    sphereStep ⟨0, 2, 1⟩ ⟨0, 0, -1⟩ st k j = st := by
  apply sphereStep_reject
  left
  rw [sphQ_side1]
  nlinarith [sq_nonneg ((k : ℝ))]

/-- The vertical ray from `(0,2,1)` reaches the ground plane at distance 1
and hits no sphere. -/
theorem trace_side1 : trace ⟨0, 2, 1⟩ ⟨0, 0, -1⟩ = ⟨1, 1, ⟨0, 0, 1⟩⟩ := by
  rw [trace_eq_occ]
  have hg : groundState ⟨0, 2, 1⟩ ⟨0, 0, -1⟩ = ⟨1, 1, ⟨0, 0, 1⟩⟩ := by
    unfold groundState
    rw [if_pos (by simp; norm_num)]
    simp [Hit.mk.injEq]
  rw [hg]
  exact foldlFixed _ _ _ fun c _ => step_side1_id c.1 c.2 _

/-- Discriminant along the horizontal ray from `(0,2,9)` toward `(1,0,0)`:
negative everywhere. -/
theorem sphQ_horiz (k j : ℕ) :
    sphQ ⟨0, 2, 9⟩ ⟨1, 0, 0⟩ k j = -3 - ((5 : ℝ) - j) ^ 2 := by
  simp [sphQ, sphB, sphC, sphP, V.dot]
  ring

/-- Every cell rejects the horizontal ray from `(0,2,9)` toward `(1,0,0)`. -/
theorem step_horiz_id (k j : ℕ) (st : Hit) :
    sphereStep ⟨0, 2, 9⟩ ⟨1, 0, 0⟩ st k j = st := by
  apply sphereStep_reject
  left
  rw [sphQ_horiz]
  nlinarith [sq_nonneg ((5 : ℝ) - j)]

/-- The horizontal ray from `(0,2,9)` toward `(1,0,0)` misses everything:
sky classification. -/
theorem trace_horiz : trace ⟨0, 2, 9⟩ ⟨1, 0, 0⟩ = ⟨0, fMAX, ⟨0, 0, 1⟩⟩ := by
  rw [trace_eq_occ]
  have hg : groundState ⟨0, 2, 9⟩ ⟨1, 0, 0⟩ = ⟨0, fMAX, ⟨0, 0, 1⟩⟩ := by
    unfold groundState
    rw [if_neg (by simp; norm_num)]
  rw [hg]
  exact foldlFixed _ _ _ fun c _ => step_horiz_id c.1 c.2 _

/-- Discriminant along the upward ray from `(0,2,9)`: negative everywhere. -/
theorem sphQ_up (k j : ℕ) :
    sphQ ⟨0, 2, 9⟩ ⟨0, 0, 1⟩ k j = -3 - (k : ℝ) ^ 2 := by
  simp [sphQ, sphB, sphC, sphP, V.dot]
  ring

/-- Every cell rejects the upward ray from `(0,2,9)`. -/
theorem step_up_id (k j : ℕ) (st : Hit) :
    sphereStep ⟨0, 2, 9⟩ ⟨0, 0, 1⟩ st k j = st := by
  apply sphereStep_reject
  left
  rw [sphQ_up]
  nlinarith [sq_nonneg ((k : ℝ))]

/-- The upward ray from `(0,2,9)` misses everything: sky classification. -/
theorem trace_up : trace ⟨0, 2, 9⟩ ⟨0, 0, 1⟩ = ⟨0, fMAX, ⟨0, 0, 1⟩⟩ := by
  rw [trace_eq_occ]
  have hg : groundState ⟨0, 2, 9⟩ ⟨0, 0, 1⟩ = ⟨0, fMAX, ⟨0, 0, 1⟩⟩ := by
    unfold groundState
    rw [if_neg (by simp; norm_num)]
  rw [hg]
  exact foldlFixed _ _ _ fun c _ => step_up_id c.1 c.2 _

/-- The spec-modelled sphere test rejects under the same conditions as the
code's. -/
theorem sphereStepAt_reject (C o d : V) (st : Hit)
    (h : qAt C o d ≤ 0 ∨ sAt C o d ≤ 0.01 ∨ st.t ≤ sAt C o d) :
    sphereStepAt C o d st = st := by
  unfold sphereStepAt
  rcases h with h | h | h
  · rw [if_neg (not_lt.mpr h)]
  · by_cases hq : qAt C o d > 0
    · rw [if_pos hq, if_neg fun hc => absurd hc.2 (not_lt.mpr h)]
    · rw [if_neg hq]
  · by_cases hq : qAt C o d > 0
    · rw [if_pos hq, if_neg fun hc => absurd hc.1 (not_lt.mpr h)]
    · rw [if_neg hq]

/-- Discriminant of the claim-C5 centers for the vertical ray from
`(9,0,12)`. -/
theorem qAt_spec_down9 (k j : ℕ) :
    qAt (centerSpec k j) ⟨9, 0, 12⟩ ⟨0, 0, -1⟩ = 1 - ((9 : ℝ) - k) ^ 2 := by
  simp [qAt, bAt, cAt, pAt, centerSpec, V.dot]
  ring

/-- Root of the claim-C5 sphere in column 9 for the vertical ray from
`(9,0,12)`: the claimed spheres sit below the ground, 15 + j away. -/
theorem sAt_spec_down9 (j : ℕ) :
    sAt (centerSpec 9 j) ⟨9, 0, 12⟩ ⟨0, 0, -1⟩ = 15 + (j : ℝ) := by
  have hq : qAt (centerSpec 9 j) ⟨9, 0, 12⟩ ⟨0, 0, -1⟩ = 1 := by
    rw [qAt_spec_down9]; norm_num
  unfold sAt
  rw [hq, Real.sqrt_one]
  simp [bAt, pAt, centerSpec, V.dot]
  ring

/-- With the claim-C5 centers, every cell rejects the vertical ray from
`(9,0,12)` at the provisional ground state. -/
theorem stepSpec_down9_id (k j : ℕ) :
    sphereStepAt (centerSpec k j) ⟨9, 0, 12⟩ ⟨0, 0, -1⟩ ⟨1, 12, ⟨0, 0, 1⟩⟩ =
      ⟨1, 12, ⟨0, 0, 1⟩⟩ := by
  by_cases hk : k = 9
  · subst hk
    apply sphereStepAt_reject
    right; right
    rw [sAt_spec_down9]
    have hj : (0 : ℝ) ≤ (j : ℝ) := Nat.cast_nonneg j
    show (12 : ℝ) ≤ 15 + (j : ℝ)
    linarith
  · apply sphereStepAt_reject
    left
    rw [qAt_spec_down9]
    have h1 : (1 : ℝ) ≤ ((9 : ℝ) - k) ^ 2 := by
      rcases lt_or_gt_of_ne hk with h | h
      · have hk8 : (k : ℝ) ≤ 8 := by exact_mod_cast Nat.le_of_lt_succ h
        nlinarith
      · have hk10 : (10 : ℝ) ≤ (k : ℝ) := by exact_mod_cast h
        nlinarith
    linarith

/-- The claim-C5 intersector (spheres at `z = -j-4`) classifies the vertical
ray from `(9,0,12)` as a ground hit at distance 12. -/
theorem traceSpec_down9 :
    traceSpecC5 ⟨9, 0, 12⟩ ⟨0, 0, -1⟩ = ⟨1, 12, ⟨0, 0, 1⟩⟩ := by
  unfold traceSpecC5 traceWithCenters
  rw [ground_down9]
  exact foldlFixed _ _ _ fun c _ => stepSpec_down9_id c.1 c.2

/-- With the corrected centers `(k, 0, j+4)`, the spec-modelled relative
origin agrees with the code's `p`. -/
theorem pAt_amended (o : V) (k j : ℕ) :
    pAt (centerAmended k j) o = sphP o k j := by
  ext <;> simp [pAt, centerAmended, sphP] <;> ring

/-- With the corrected centers, the spec-modelled discriminant agrees with
the code's. -/
theorem qAt_amended (o d : V) (k j : ℕ) :
    qAt (centerAmended k j) o d = sphQ o d k j := by
  unfold qAt bAt cAt sphQ sphB sphC
  rw [pAt_amended]

/-- With the corrected centers, the spec-modelled root agrees with the
code's. -/
theorem sAt_amended (o d : V) (k j : ℕ) :
    sAt (centerAmended k j) o d = sphS o d k j := by
  unfold sAt bAt sphS sphB
  rw [pAt_amended, show qAt (centerAmended k j) o d = sphQ o d k j from
    qAt_amended o d k j]

/-- With the corrected centers, the spec-modelled sphere test is the code's
sphere test. -/
theorem stepAt_amended (o d : V) (st : Hit) (k j : ℕ) :
    sphereStepAt (centerAmended k j) o d st = sphereStep o d st k j := by
  unfold sphereStepAt sphereStep
  rw [qAt_amended, sAt_amended, pAt_amended]

/-- Each loop iteration either leaves the state unchanged or records a
sphere hit. -/
theorem loopBody_cases (o d : V) (st : Hit) (c : ℕ × ℕ) :
    loopBody o d st c = st ∨ (loopBody o d st c).m = 2 := by
  unfold loopBody sphereStep
  by_cases h1 : occ c.1 c.2
  · rw [if_pos h1]
    by_cases h2 : sphQ o d c.1 c.2 > 0
    · rw [if_pos h2]
      by_cases h3 : sphS o d c.1 c.2 < st.t ∧ sphS o d c.1 c.2 > 0.01
      · rw [if_pos h3]
        right
        rfl
      · rw [if_neg h3]
        left
        rfl
    · rw [if_neg h2]
      left
      rfl
  · rw [if_neg h1]
    left
    rfl

/-- A sphere classification is never lost by later loop iterations. -/
theorem foldl_loopBody_m2 (o d : V) :
    ∀ (l : List (ℕ × ℕ)) (st : Hit), st.m = 2 →
      (List.foldl (loopBody o d) st l).m = 2
  | [], _, h => h
  | c :: l, st, h => by
    rw [List.foldl_cons]
    refine foldl_loopBody_m2 o d l _ ?_
    rcases loopBody_cases o d st c with he | hm
    · rw [he]; exact h
    · exact hm

/-- If the scan does not end in a sphere classification, it never changed the
state at all. -/
theorem foldl_loopBody_unchanged (o d : V) :
    ∀ (l : List (ℕ × ℕ)) (st : Hit),
      (List.foldl (loopBody o d) st l).m ≠ 2 →
      List.foldl (loopBody o d) st l = st
  | [], _, _ => rfl
  | c :: l, st, h => by
    rw [List.foldl_cons] at h ⊢
    rcases loopBody_cases o d st c with he | hm
    · rw [he] at h ⊢
      exact foldl_loopBody_unchanged o d l st h
    · exact absurd (foldl_loopBody_m2 o d l _ hm) h

/-- The classification returned by `trace` is 0, 1 or 2. -/
theorem trace_m_range (o d : V) :
    (trace o d).m = 0 ∨ (trace o d).m = 1 ∨ (trace o d).m = 2 := by
  unfold trace
  have hstep : ∀ (l : List (ℕ × ℕ)) (st : Hit),
      st.m = 0 ∨ st.m = 1 ∨ st.m = 2 →
      (List.foldl (loopBody o d) st l).m = 0 ∨
        (List.foldl (loopBody o d) st l).m = 1 ∨
        (List.foldl (loopBody o d) st l).m = 2 := by
    intro l
    induction l with
    | nil => intro st h; exact h
    | cons c l ih =>
      intro st h
      rw [List.foldl_cons]
      refine ih _ ?_
      rcases loopBody_cases o d st c with he | hm
      · rw [he]; exact h
      · right; right; exact hm
  refine hstep cells (groundState o d) ?_
  unfold groundState
  by_cases hp : -o.z / d.z > 0.01
  · rw [if_pos hp]; right; left; rfl
  · rw [if_neg hp]; left; rfl

/-- Unfolding `sample` on a sky classification. -/
theorem sample_sky (fuel : ℕ) (u : ℕ → ℝ) (i : ℕ) (o d : V)
    (h : (trace o d).m = 0) :
    sample (fuel + 1) u i o d = some (V.mk 0.7 0.6 1 * (1 - d.z) ^ 4) := by
  simp only [sample]
  rw [if_pos h]

/-- Unfolding `sample` on a ground classification. -/
theorem sample_ground (fuel : ℕ) (u : ℕ → ℝ) (i : ℕ) (o d : V)
    (h : (trace o d).m = 1) :
    sample (fuel + 1) u i o d =
      some (groundCheck (o + d * (trace o d).t) *
        (shadowB (lightDir u i (o + d * (trace o d).t)) (trace o d).n
            (o + d * (trace o d).t) * 0.2 + 0.1)) := by
  simp only [sample]
  rw [if_neg (by rw [h]; simp), if_pos h]

/-- Unfolding `sample` on a sphere classification: the specular term on all
three channels plus the recursive reflection bounce attenuated by half. -/
theorem sample_sphere (fuel : ℕ) (u : ℕ → ℝ) (i : ℕ) (o d : V)
    (h : (trace o d).m = 2) :
    sample (fuel + 1) u i o d =
      (sample fuel u (i + 2) (o + d * (trace o d).t)
          (reflDir d (trace o d).n)).map fun c =>
        V.mk (specTerm u i o d) (specTerm u i o d) (specTerm u i o d) +
          c * (0.5 : ℝ) := by
  simp only [sample]
  rw [if_neg (by rw [h]; simp), if_neg (by rw [h]; simp)]
  rfl

/-- The two rays bouncing between the spheres of cells `(3,5)` and `(8,5)`
along their line of centers exhaust any amount of recursion fuel: the
reflection of each is exactly the other. -/
theorem sample_cycle : ∀ (fuel : ℕ) (u : ℕ → ℝ) (i : ℕ),
    sample fuel u i ⟨4, 0, 9⟩ ⟨1, 0, 0⟩ = none ∧
      sample fuel u i ⟨7, 0, 9⟩ ⟨-1, 0, 0⟩ = none := by
  intro fuel
  induction fuel with
  | zero => intro u i; exact ⟨rfl, rfl⟩
  | succ n ih =>
    intro u i
    constructor
    · rw [sample_sphere n u i _ _ (by rw [trace_rayA])]
      rw [trace_rayA]
      have hH : (⟨4, 0, 9⟩ : V) + (⟨1, 0, 0⟩ : V) *
          ((⟨2, 3, ⟨-1, 0, 0⟩⟩ : Hit)).t = ⟨7, 0, 9⟩ := by
        ext <;> simp <;> norm_num
      have hR : reflDir ⟨1, 0, 0⟩ ((⟨2, 3, ⟨-1, 0, 0⟩⟩ : Hit)).n = ⟨-1, 0, 0⟩ := by
        unfold reflDir V.dot
        ext <;> simp <;> norm_num
      rw [hH, hR, (ih u (i + 2)).2]
      rfl
    · rw [sample_sphere n u i _ _ (by rw [trace_rayB])]
      rw [trace_rayB]
      have hH : (⟨7, 0, 9⟩ : V) + (⟨-1, 0, 0⟩ : V) *
          ((⟨2, 3, ⟨1, 0, 0⟩⟩ : Hit)).t = ⟨4, 0, 9⟩ := by
        ext <;> simp <;> norm_num
      have hR : reflDir ⟨-1, 0, 0⟩ ((⟨2, 3, ⟨1, 0, 0⟩⟩ : Hit)).n = ⟨1, 0, 0⟩ := by
        unfold reflDir V.dot
        ext <;> simp <;> norm_num
      rw [hH, hR, (ih u (i + 2)).1]
      rfl

/-- C1: for every ray and occupied cell, with `p` the origin relative to the
cell's sphere center, `b = dot(p,d)`, `c = dot(p,p) - 1`, `q = b*b - c`, the
intersector accepts a sphere hit exactly when `q > 0` and the nearest root
`s = -b - sqrt(q)` is strictly below the current best distance and strictly
above `0.01`; on acceptance the best distance becomes `s`, the normal becomes
the normalization of the hit point relative to the center, and the class
becomes sphere (2). -/
theorem C1_sphere_accept (o d : V) (k j : ℕ) (st : Hit) (hocc : occ k j) :
    loopBody o d st (k, j) =
      if sphQ o d k j > 0 ∧ sphS o d k j < st.t ∧ sphS o d k j > 0.01 then
        ⟨2, sphS o d k j, V.nrm (sphP o k j + d * sphS o d k j)⟩
      else st := by
  show (if occ k j then sphereStep o d st k j else st) = _
  rw [if_pos hocc]
  unfold sphereStep
  by_cases hq : sphQ o d k j > 0
  · by_cases hs : sphS o d k j < st.t ∧ sphS o d k j > 0.01
    · rw [if_pos hq, if_pos hs, if_pos ⟨hq, hs.1, hs.2⟩]
    · rw [if_pos hq, if_neg hs, if_neg fun hc => hs ⟨hc.2.1, hc.2.2⟩]
  · rw [if_neg hq, if_neg fun hc => hq hc.1]

/-- Witness for C1 at the occupied cell `(9,5)` and the ray of `trace_down9`. -/
theorem C1_sphere_accept_witness :
    occ 9 5 ∧
      loopBody ⟨9, 0, 12⟩ ⟨0, 0, -1⟩ ⟨1, 12, ⟨0, 0, 1⟩⟩ (9, 5) =
        if sphQ ⟨9, 0, 12⟩ ⟨0, 0, -1⟩ 9 5 > 0 ∧
            sphS ⟨9, 0, 12⟩ ⟨0, 0, -1⟩ 9 5 < (⟨1, 12, ⟨0, 0, 1⟩⟩ : Hit).t ∧
            sphS ⟨9, 0, 12⟩ ⟨0, 0, -1⟩ 9 5 > 0.01 then
          ⟨2, sphS ⟨9, 0, 12⟩ ⟨0, 0, -1⟩ 9 5,
            V.nrm (sphP ⟨9, 0, 12⟩ 9 5 +
              (⟨0, 0, -1⟩ : V) * sphS ⟨9, 0, 12⟩ ⟨0, 0, -1⟩ 9 5)⟩
        else ⟨1, 12, ⟨0, 0, 1⟩⟩ :=
  ⟨by decide, C1_sphere_accept ⟨9, 0, 12⟩ ⟨0, 0, -1⟩ 9 5 ⟨1, 12, ⟨0, 0, 1⟩⟩
    (by decide)⟩

/-- C2: for every ray classified as a sphere hit, the shader returns
`(spec, spec, spec) + shade(H, R) * 0.5` with `H = o + d * t`,
`R = d - n * 2 * dot(n, d)` and
`spec = (dot(L, R) * (1 if b > 0 else 0))^99`: the reflection bounce is
recursive, attenuated by exactly half, and the specular term is added equally
to all three channels. -/
theorem C2_sphere_shading (fuel : ℕ) (u : ℕ → ℝ) (i : ℕ) (o d : V)
    (h : (trace o d).m = 2) :
    sample (fuel + 1) u i o d =
      (sample fuel u (i + 2) (o + d * (trace o d).t)
          (reflDir d (trace o d).n)).map (fun c =>
        V.mk (specTerm u i o d) (specTerm u i o d) (specTerm u i o d) +
          c * (0.5 : ℝ)) ∧
      reflDir d (trace o d).n =
        d + (trace o d).n * (2 * V.dot (trace o d).n d) * (-1 : ℝ) ∧
      specTerm u i o d =
        (V.dot (lightDir u i (o + d * (trace o d).t))
            (reflDir d (trace o d).n) *
          (if shadowB (lightDir u i (o + d * (trace o d).t)) (trace o d).n
              (o + d * (trace o d).t) > 0 then 1 else 0)) ^ 99 := by
  refine ⟨sample_sphere fuel u i o d h, ?_, rfl⟩
  unfold reflDir
  ext <;> simp only [V.add_x, V.add_y, V.add_z, V.mul_x, V.mul_y, V.mul_z] <;>
    ring

/-- Witness for C2 at the sphere-hitting ray of `trace_down9`. -/
theorem C2_sphere_shading_witness :
    (trace ⟨9, 0, 12⟩ ⟨0, 0, -1⟩).m = 2 ∧
      sample (1 + 1) u0 0 ⟨9, 0, 12⟩ ⟨0, 0, -1⟩ =
        (sample 1 u0 (0 + 2)
            (⟨9, 0, 12⟩ + (⟨0, 0, -1⟩ : V) * (trace ⟨9, 0, 12⟩ ⟨0, 0, -1⟩).t)
            (reflDir ⟨0, 0, -1⟩ (trace ⟨9, 0, 12⟩ ⟨0, 0, -1⟩).n)).map (fun c =>
          V.mk (specTerm u0 0 ⟨9, 0, 12⟩ ⟨0, 0, -1⟩)
            (specTerm u0 0 ⟨9, 0, 12⟩ ⟨0, 0, -1⟩)
            (specTerm u0 0 ⟨9, 0, 12⟩ ⟨0, 0, -1⟩) + c * (0.5 : ℝ)) :=
  ⟨by rw [trace_down9],
    (C2_sphere_shading 1 u0 0 ⟨9, 0, 12⟩ ⟨0, 0, -1⟩ (by rw [trace_down9])).1⟩

/-- C3 counterexample: shading does not terminate for every origin and
direction — the ray from `(4,0,9)` toward `(1,0,0)` reflects between the
spheres of cells `(3,5)` and `(8,5)` forever. -/
theorem C3_counterexample : ¬ Terminates ⟨4, 0, 9⟩ ⟨1, 0, 0⟩ := by
  rintro ⟨fuel, hfuel⟩
  exact hfuel u0 0 (sample_cycle fuel u0 0).1

/-- C3 (amended): only sphere hits recurse — a ray not classified as a sphere
hit returns a color with a single unit of recursion fuel — but with no
recursion-depth cap there exist origins and directions for which the shading
recursion never returns. -/
theorem C3_amended_termination :
    (∀ (o d : V) (u : ℕ → ℝ) (i fuel : ℕ), (trace o d).m ≠ 2 →
        ∃ c, sample (fuel + 1) u i o d = some c) ∧
      ∃ o d : V, ¬ Terminates o d := by
  constructor
  · intro o d u i fuel h
    rcases trace_m_range o d with h0 | h1 | h2
    · exact ⟨_, sample_sky fuel u i o d h0⟩
    · exact ⟨_, sample_ground fuel u i o d h1⟩
    · exact absurd h2 h
  · refine ⟨⟨4, 0, 9⟩, ⟨1, 0, 0⟩, ?_⟩
    rintro ⟨fuel, hfuel⟩
    exact hfuel u0 0 (sample_cycle fuel u0 0).1

/-- Witness for the amended C3 at the sky-classified horizontal ray from
`(0,2,9)`. -/
theorem C3_amended_termination_witness :
    (trace ⟨0, 2, 9⟩ ⟨1, 0, 0⟩).m ≠ 2 ∧
      ∃ c, sample (0 + 1) u0 0 ⟨0, 2, 9⟩ ⟨1, 0, 0⟩ = some c :=
  ⟨by rw [trace_horiz]; simp,
    C3_amended_termination.1 ⟨0, 2, 9⟩ ⟨1, 0, 0⟩ u0 0 0
      (by rw [trace_horiz]; simp)⟩

/-- C4 counterexample: the ray from `(9,0,12)` toward `(0,0,-1)` has a
strictly negative direction z, `-o.z/d.z = 12 > 0.01`, yet the intersector
does not return the ground class — a sphere hit overrides it. -/
theorem C4_counterexample :
    (⟨0, 0, -1⟩ : V).z < 0 ∧
      -(⟨9, 0, 12⟩ : V).z / (⟨0, 0, -1⟩ : V).z > 0.01 ∧
      (trace ⟨9, 0, 12⟩ ⟨0, 0, -1⟩).m ≠ 1 :=
  ⟨by norm_num, by norm_num, by rw [trace_down9]; simp⟩

/-- C4 (amended): for every ray with strictly negative direction z and
`-o.z/d.z > 0.01` whose final classification is not a sphere hit, the
intersector returns the ground class with distance exactly `-o.z/d.z` (and
normal `(0,0,1)`). -/
theorem C4_ground_closed_form (o d : V) (_hz : d.z < 0)
    (h2 : -o.z / d.z > 0.01) (h3 : (trace o d).m ≠ 2) :
    trace o d = ⟨1, -o.z / d.z, ⟨0, 0, 1⟩⟩ := by
  have hg : groundState o d = ⟨1, -o.z / d.z, ⟨0, 0, 1⟩⟩ := by
    unfold groundState
    rw [if_pos h2]
  unfold trace at h3 ⊢
  rw [foldl_loopBody_unchanged o d cells _ h3, hg]

/-- Witness for the amended C4 at the sphere-missing vertical ray from
`(0,2,1)`. -/
theorem C4_ground_closed_form_witness :
    (⟨0, 0, -1⟩ : V).z < 0 ∧
      -(⟨0, 2, 1⟩ : V).z / (⟨0, 0, -1⟩ : V).z > 0.01 ∧
      (trace ⟨0, 2, 1⟩ ⟨0, 0, -1⟩).m ≠ 2 ∧
      trace ⟨0, 2, 1⟩ ⟨0, 0, -1⟩ =
        ⟨1, -(⟨0, 2, 1⟩ : V).z / (⟨0, 0, -1⟩ : V).z, ⟨0, 0, 1⟩⟩ :=
  ⟨by norm_num, by norm_num, by rw [trace_side1]; simp,
    C4_ground_closed_form ⟨0, 2, 1⟩ ⟨0, 0, -1⟩ (by norm_num) (by norm_num)
      (by rw [trace_side1]; simp)⟩

/-- C5 counterexample: the code's intersector and the claim's intersector
(spheres centered at `(k, 0, -j-4)`) disagree on the vertical ray from
`(9,0,12)`: the code reports a sphere hit (class 2, distance 2), the claimed
centers would report a ground hit (class 1, distance 12). -/
theorem C5_counterexample :
    (trace ⟨9, 0, 12⟩ ⟨0, 0, -1⟩).m = 2 ∧
      (traceSpecC5 ⟨9, 0, 12⟩ ⟨0, 0, -1⟩).m = 1 ∧
      trace ⟨9, 0, 12⟩ ⟨0, 0, -1⟩ ≠ traceSpecC5 ⟨9, 0, 12⟩ ⟨0, 0, -1⟩ := by
  refine ⟨by rw [trace_down9], by rw [traceSpec_down9], ?_⟩
  rw [trace_down9, traceSpec_down9]
  simp [Hit.mk.injEq]

/-- C5 (amended): bit `k` of row `j` set means a unit sphere centered at
`(x = k, y = 0, z = j + 4)`, and the intersector tests exactly the spheres at
those centers: `trace` equals the intersector that scans the occupied cells
with centers `(k, 0, j+4)`. -/
theorem C5_amended_centers (o d : V) : trace o d = traceAmendedC5 o d := by
  rw [trace_eq_occ]
  unfold traceAmendedC5 traceWithCenters
  have hf : (fun (st : Hit) (c : ℕ × ℕ) =>
        sphereStepAt (centerAmended c.1 c.2) o d st) =
      fun st c => sphereStep o d st c.1 c.2 := by
    funext st c
    exact stepAt_amended o d st c.1 c.2
  rw [hf]

/-- C6 counterexample: the horizontal sky ray from `(0,2,9)` toward `(1,0,0)`
(direction z = 0) shades to the full `(0.7, 0.6, 1.0)`, not black. -/
theorem C6_counterexample :
    (trace ⟨0, 2, 9⟩ ⟨1, 0, 0⟩).m = 0 ∧ (⟨1, 0, 0⟩ : V).z = 0 ∧
      sample (0 + 1) u0 0 ⟨0, 2, 9⟩ ⟨1, 0, 0⟩ = some ⟨0.7, 0.6, 1⟩ ∧
      (⟨0.7, 0.6, 1⟩ : V) ≠ ⟨0, 0, 0⟩ := by
  refine ⟨by rw [trace_horiz], rfl, ?_, ?_⟩
  · rw [sample_sky 0 u0 0 _ _ (by rw [trace_horiz])]
    congr 1
    ext <;> simp
  · intro hc
    have hx := congrArg V.x hc
    simp at hx
    norm_num at hx

/-- C6 (amended): whenever the intersector classifies a ray as sky, the
shader returns `(0.7, 0.6, 1.0) * (1 - d.z)^4`, a gradient that darkens
toward the zenith and is black, i.e. `(0,0,0)`, for every straight-up ray
(`d.z = 1`); a horizontal ray (`d.z = 0`) receives the full base color. -/
theorem C6_sky_gradient (fuel : ℕ) (u : ℕ → ℝ) (i : ℕ) (o d : V)
    (h : (trace o d).m = 0) :
    sample (fuel + 1) u i o d = some (V.mk 0.7 0.6 1 * (1 - d.z) ^ 4) ∧
      (d.z = 1 → sample (fuel + 1) u i o d = some ⟨0, 0, 0⟩) ∧
      (d.z = 0 → sample (fuel + 1) u i o d = some ⟨0.7, 0.6, 1⟩) := by
  refine ⟨sample_sky fuel u i o d h, fun hz => ?_, fun hz => ?_⟩
  · rw [sample_sky fuel u i o d h, hz]
    congr 1
    ext <;> simp
  · rw [sample_sky fuel u i o d h, hz]
    congr 1
    ext <;> simp

/-- Witness for the amended C6 at the straight-up sky ray from `(0,2,9)`. -/
theorem C6_sky_gradient_witness :
    (trace ⟨0, 2, 9⟩ ⟨0, 0, 1⟩).m = 0 ∧
      sample (0 + 1) u0 0 ⟨0, 2, 9⟩ ⟨0, 0, 1⟩ =
        some (V.mk 0.7 0.6 1 * (1 - (⟨0, 0, 1⟩ : V).z) ^ 4) ∧
      sample (0 + 1) u0 0 ⟨0, 2, 9⟩ ⟨0, 0, 1⟩ = some ⟨0, 0, 0⟩ :=
  ⟨by rw [trace_up],
    (C6_sky_gradient 0 u0 0 ⟨0, 2, 9⟩ ⟨0, 0, 1⟩ (by rw [trace_up])).1,
    (C6_sky_gradient 0 u0 0 ⟨0, 2, 9⟩ ⟨0, 0, 1⟩ (by rw [trace_up])).2.1 rfl⟩

/-- C7: the Lambertian term `b = dot(L, n)` is zeroed exactly when `b < 0` or
the shadow ray traced from the hit point toward the light is classified as
anything other than sky (`(trace h l).m ≠ 0`, i.e. a ground or sphere hit);
the shadow test is a call to the intersector `trace` only, never to the
shader. -/
theorem C7_shadow_zeroing (l n h : V) :
    shadowB l n h =
      if V.dot l n < 0 ∨ (trace h l).m ≠ 0 then 0 else V.dot l n := by
  unfold shadowB
  exact if_congr (or_congr Iff.rfl Nat.pos_iff_ne_zero) rfl rfl

/-- C8: within one sample of one pixel, the lens-jitter vector `t` added to
the fixed eye point `(16,16,8)` is exactly the vector negated inside the
normalized ray direction — the direction's compensation term is the origin's
offset from the eye — and each iteration of `trace_pixel` builds both from
the same two random draws. -/
theorem C8_jitter_coupling (av bv cv : V) (x y : ℤ) (r1 r2 r3 r4 : ℝ)
    (fuel : ℕ) (us : ℕ → ℕ → ℝ) (idx : ℕ) :
    pixelRayO av bv r1 r2 = eye + lensJitter av bv r1 r2 ∧
      pixelRayD av bv cv x y r1 r2 r3 r4 =
        V.nrm ((pixelRayO av bv r1 r2 + eye * (-1 : ℝ)) * (-1 : ℝ) +
          (av * (r3 + (x : ℝ)) + bv * ((y : ℝ) + r4) + cv) * (16 : ℝ)) ∧
      tracePixel fuel us x y av bv cv idx =
        ((List.range 256).foldl (fun acc s => acc.bind fun pAcc =>
            (sample fuel (us s) 4 (eye + lensJitter av bv (us s 0) (us s 1))
                (V.nrm (lensJitter av bv (us s 0) (us s 1) * (-1 : ℝ) +
                  (av * (us s 2 + (x : ℝ)) + bv * ((y : ℝ) + us s 3) + cv) *
                    (16 : ℝ)))).map fun c => c * GAIN + pAcc)
          (some (⟨13, 13, 13⟩ : V))).map fun p => (idx, p) := by
  refine ⟨rfl, ?_, rfl⟩
  unfold pixelRayD pixelRayO
  congr 1
  ext <;> simp only [V.add_x, V.add_y, V.add_z, V.mul_x, V.mul_y, V.mul_z] <;>
    ring

/-- C9: for every family of tagged pixel results and every permutation in
which they arrive on the channel, sorting by sequence index restores exactly
the sequence-ordered list — the buffer handed to output is independent of the
workers' completion order. -/
theorem C9_scheduler_reorder (f : ℕ → V) (N : ℕ) (l : List (ℕ × V))
    (h : l.Perm (results f N)) : sortByIdx l = results f N := by
  haveI ht : IsTotal (ℕ × V) (fun a b => a.1 ≤ b.1) :=
    ⟨fun a b => Nat.le_total a.1 b.1⟩
  haveI htr : IsTrans (ℕ × V) (fun a b => a.1 ≤ b.1) :=
    ⟨fun _ _ _ hab hbc => Nat.le_trans hab hbc⟩
  haveI has : IsAntisymm (ℕ × V) (fun a b => a.1 < b.1) :=
    ⟨fun _ _ h1 h2 => absurd h2 (Nat.lt_asymm h1)⟩
  have hkey : List.Pairwise (fun a b : ℕ × V => a.1 < b.1) (results f N) := by
    unfold results
    rw [List.pairwise_map]
    exact List.pairwise_lt_range N
  have hperm : (sortByIdx l).Perm (results f N) :=
    (List.perm_insertionSort _ l).trans h
  have hsorted : List.Sorted (fun a b : ℕ × V => a.1 ≤ b.1) (sortByIdx l) :=
    List.sorted_insertionSort _ l
  have hne : List.Pairwise (fun a b : ℕ × V => a.1 ≠ b.1) (sortByIdx l) :=
    (hperm.pairwise_iff fun hab => Ne.symm hab).2
      (hkey.imp fun hab => Nat.ne_of_lt hab)
  have hlt : List.Pairwise (fun a b : ℕ × V => a.1 < b.1) (sortByIdx l) :=
    (hsorted.and hne).imp fun hab => lt_of_le_of_ne hab.1 hab.2
  exact List.eq_of_perm_of_sorted hperm hlt hkey

/-- Witness for C9: a 2×2 frame whose first two results arrive swapped. -/
theorem C9_scheduler_reorder_witness :
    ([(1, f0 1), (0, f0 0), (2, f0 2), (3, f0 3)] : List (ℕ × V)).Perm
        (results f0 (2 * 2)) ∧
      sortByIdx [(1, f0 1), (0, f0 0), (2, f0 2), (3, f0 3)] =
        results f0 (2 * 2) := by
  have hp : ([(1, f0 1), (0, f0 0), (2, f0 2), (3, f0 3)] : List (ℕ × V)).Perm
      (results f0 (2 * 2)) := by
    have hres : results f0 (2 * 2) =
        [(0, f0 0), (1, f0 1), (2, f0 2), (3, f0 3)] := rfl
    rw [hres]
    exact List.Perm.swap _ _ _
  exact ⟨hp, C9_scheduler_reorder f0 (2 * 2) _ hp⟩

/-- C10: the byte conversion `V::c` is total on every component value
including NaN and the infinities: each channel is clamped to `[0, 255]` and
cast to a byte, a negative or `-inf` component gives 0, a component at or
above 255 or `+inf` gives 255, and a NaN component (which survives the
clamp) gives 0 under the saturating cast — degenerate shading values are
serialized silently. -/
theorem C10_byte_conversion (x : F32) (v : VF) :
    VF.c v = (byteOf v.x, byteOf v.y, byteOf v.z) ∧
      byteOf x ≤ 255 ∧
      (x = F32.nan → byteOf x = 0) ∧
      (x = F32.ninf → byteOf x = 0) ∧
      (x = F32.inf → byteOf x = 255) ∧
      (∀ q : ℚ, x = F32.fin q → q < 0 → byteOf x = 0) ∧
      (∀ q : ℚ, x = F32.fin q → 255 ≤ q → byteOf x = 255) := by
  refine ⟨rfl, ?_, ?_, ?_, ?_, ?_, ?_⟩
  · unfold byteOf
    cases hc : F32.clamp x (F32.fin 0) (F32.fin 255) with
    | nan => simp [F32.toU8]
    | inf => simp [F32.toU8]
    | ninf => simp [F32.toU8]
    | fin a =>
      simp only [F32.toU8]
      by_cases ha : a < 0
      · rw [if_pos ha]
        exact Nat.zero_le 255
      · rw [if_neg ha]
        exact min_le_left 255 _
  · intro hx
    subst hx
    decide
  · intro hx
    subst hx
    decide
  · intro hx
    subst hx
    decide
  · intro q hx hq
    subst hx
    unfold byteOf F32.clamp
    have hlo : F32.lt (F32.fin q) (F32.fin 0) = true := by
      simp [F32.lt]
      exact hq
    rw [hlo]
    show F32.toU8 (F32.fin 0) = 0
    decide
  · intro q hx hq
    subst hx
    unfold byteOf F32.clamp
    have hlo : F32.lt (F32.fin q) (F32.fin 0) = false := by
      simp [F32.lt]
      linarith
    rw [hlo]
    by_cases h2 : (255 : ℚ) < q
    · have hhi : F32.lt (F32.fin 255) (F32.fin q) = true := by
        simp [F32.lt]
        exact h2
      rw [hhi]
      show F32.toU8 (F32.fin 255) = 255
      decide
    · have h255 : q = 255 := le_antisymm (not_lt.mp h2) hq
      subst h255
      have hhi : F32.lt (F32.fin 255) (F32.fin 255) = false := by decide
      rw [hhi]
      show F32.toU8 (F32.fin 255) = 255
      decide

/-- Witness for C10 at a negative finite component. -/
theorem C10_byte_conversion_witness :
    byteOf (F32.fin (-5)) ≤ 255 ∧ byteOf (F32.fin (-5)) = 0 :=
  ⟨(C10_byte_conversion (F32.fin (-5)) ⟨F32.fin (-5), F32.nan, F32.inf⟩).2.1,
    (C10_byte_conversion (F32.fin (-5))
      ⟨F32.fin (-5), F32.nan, F32.inf⟩).2.2.2.2.2.1 (-5) rfl (by norm_num)⟩
